import Mathlib

/-!
Shallow embedding of the catalog-harvesting engine of the bravo_online
repository (Wolt Bravo scraper scripts), covering:

* `scripts/wolt_scraper_complete.py` — category flattening, per-category item
  fetching, dedup merge into the product dict, search supplement sweep,
  completeness verification;
* `wolt_complete_scraper.py` — the batch search loop of the alternate scraper;
* `wolt_bravo_scraper.py` — the `extract_all_categories` flattener variant;
* `scripts/wolt_marketing_analysis.py` / `scripts/generate_charts.py` —
  product normalization (price units, discount detection) and pricing
  aggregates.

Python dynamic values are embedded explicitly: a possibly-missing or
possibly-None string is `Option String` (with `none` playing Python None /
absent key), an integer field is `Option Int`, and Python truthiness of these
values is made explicit by the helper functions below.  Exact rational
arithmetic (`Rat`) stands for Python float arithmetic on the small decimal
values involved.
-/

/-- Python truthiness of a string-or-None value: None and the empty string are
falsy. -/
def pyTruthy : Option String → Bool
  | none => false
  | some s => s ≠ ""

/-- Rendering of a string-or-None value inside a Python f-string: None prints
as the four-letter string None. -/
def pyShow : Option String → String
  | none => "None"
  | some s => s

/-- Python truthiness of an integer-or-None value: None and 0 are falsy. -/
def pyIntTruthy : Option Int → Bool
  | none => false
  | some n => n ≠ 0

/-- A raw item as returned by the assortment API, restricted to the fields the
scraper scripts read.  `categorySlug` and `categoryName` are the provenance
annotations written by `get_category_items` (keys beginning with an underscore
in the Python dict). -/
structure Item where
  id : Option String := none
  itemName : Option String := none
  price : Option Int := none
  categorySlug : Option String := none
  categoryName : Option String := none
deriving Repr, DecidableEq

/-- The product accumulator `self.all_products`: a Python dict keyed by item
id, embedded as an association list in insertion order. -/
abbrev Store := List (String × Item)

/-- Dict lookup by key (membership test `item_id in self.all_products`). -/
def findId : Store → String → Option Item
  | [], _ => none
  | (k, it) :: rest, key => if k = key then some it else findId rest key

/-- One step of the dedup-merge loop body of
`WoltComprehensiveScraper.scrape_all_products` (and identically of
`supplement_with_search`): an item with a falsy id is skipped; an item whose
id is already a key of the dict is skipped; otherwise it is inserted and
counted as new. -/
def mergeItem (store : Store) (item : Item) : Store × Nat :=
  match item.id with
  | none => (store, 0)
  | some k =>
      if k = "" then (store, 0)
      else
        match findId store k with
        | some _ => (store, 0)
        | none => (store ++ [(k, item)], 1)

/-- The dedup-merge loop over one fetched batch: returns the updated dict and
the `new_items` counter. -/
def mergeItems (store : Store) : List Item → Store × Nat
  | [] => (store, 0)
  | item :: rest =>
      let p := mergeItem store item
      let q := mergeItems p.1 rest
      (q.1, p.2 + q.2)

/-- The keys of the product dict. -/
def storeKeys (store : Store) : List String := store.map Prod.fst

theorem findId_append (s t : Store) (k : String) (p : Item)
    (h : findId s k = some p) : findId (s ++ t) k = some p := by
  induction s with
  | nil => simp [findId] at h
  | cons hd tl ih =>
      obtain ⟨k0, it0⟩ := hd
      by_cases hk : k0 = k
      · simpa [findId, hk] using h
      · simp only [findId, hk, if_false, List.cons_append] at h ⊢
        exact ih h

theorem mergeItem_preserves (store : Store) (item : Item) (k : String)
    (p : Item) (h : findId store k = some p) :
    findId (mergeItem store item).1 k = some p := by
  rcases hid : item.id with _ | k1
  · simpa [mergeItem, hid] using h
  · by_cases he : k1 = ""
    · simpa [mergeItem, hid, he] using h
    · rcases hf : findId store k1 with _ | q
      · simp only [mergeItem, hid, he, if_false, hf]
        exact findId_append _ _ _ _ h
      · simpa [mergeItem, hid, he, hf] using h

theorem mergeItems_preserves (items : List Item) (store : Store) (k : String)
    (p : Item) (h : findId store k = some p) :
    findId (mergeItems store items).1 k = some p := by
  induction items generalizing store with
  | nil => exact h
  | cons item rest ih =>
      simp only [mergeItems]
      exact ih _ (mergeItem_preserves store item k p h)

theorem findId_none_not_mem (store : Store) (k : String)
    (h : findId store k = none) : k ∉ storeKeys store := by
  induction store with
  | nil => simp [storeKeys]
  | cons hd tl ih =>
      obtain ⟨k0, it0⟩ := hd
      by_cases hk : k0 = k
      · simp [findId, hk] at h
      · simp only [findId, hk, if_false] at h
        simp only [storeKeys, List.map_cons, List.mem_cons, not_or]
        exact ⟨fun hkk => hk hkk.symm, ih h⟩

theorem mergeItem_keys_nodup (store : Store) (item : Item)
    (h : (storeKeys store).Nodup) : (storeKeys (mergeItem store item).1).Nodup := by
  rcases hid : item.id with _ | k
  · simpa [mergeItem, hid] using h
  · by_cases he : k = ""
    · simpa [mergeItem, hid, he] using h
    · rcases hf : findId store k with _ | q
      · have hnot : k ∉ storeKeys store := findId_none_not_mem store k hf
        simp only [mergeItem, hid, he, if_false, hf]
        simp only [storeKeys, List.map_append, List.map_cons, List.map_nil]
        rw [List.nodup_append]
        refine ⟨h, List.nodup_singleton k, ?_⟩
        intro a ha hb
        simp only [List.mem_singleton] at hb
        subst hb
        exact hnot ha
      · simpa [mergeItem, hid, he, hf] using h

theorem mergeItems_keys_nodup (items : List Item) (store : Store)
    (h : (storeKeys store).Nodup) : (storeKeys (mergeItems store items).1).Nodup := by
  induction items generalizing store with
  | nil => exact h
  | cons item rest ih =>
      simp only [mergeItems]
      exact ih _ (mergeItem_keys_nodup store item h)

/-- C1: merging never overwrites: once an identity key is bound in the Product
Store, any further merge (from any category batch or search query) leaves that
binding — and with it the provenance annotations of the first-sighting
category — unchanged; re-merging an item whose key is already present returns
the store unchanged and contributes 0 to the new-item count; and merging
preserves the at-most-one-product-per-key invariant (no duplicate keys). -/
theorem c1_store_first_writer_wins (store : Store) (items : List Item)
    (k : String) (p : Item) (item : Item)
    (hbound : findId store k = some p) :
    findId (mergeItems store items).1 k = some p ∧
    (item.id = some k → mergeItem store item = (store, 0)) ∧
    ((storeKeys store).Nodup → (storeKeys (mergeItems store items).1).Nodup) := by
  refine ⟨mergeItems_preserves items store k p hbound, ?_, fun hn => mergeItems_keys_nodup items store hn⟩
  intro hid
  by_cases he : k = ""
  · simp [mergeItem, hid, he]
  · simp [mergeItem, hid, he, hbound]

/-- Witness for C1 at a concrete store and item. -/
theorem c1_store_first_writer_wins_witness :
    findId (mergeItems [("a", { id := some "a", categoryName := some "X" })]
        [{ id := some "a", categoryName := some "Y" }]).1 "a"
      = some { id := some "a", categoryName := some "X" } ∧
    mergeItem [("a", { id := some "a", categoryName := some "X" })]
        { id := some "a", categoryName := some "Y" }
      = ([("a", { id := some "a", categoryName := some "X" })], 0) := by
  have h := c1_store_first_writer_wins
    [("a", { id := some "a", categoryName := some "X" })]
    [{ id := some "a", categoryName := some "Y" }]
    "a" { id := some "a", categoryName := some "X" }
    { id := some "a", categoryName := some "Y" } (by rfl)
  exact ⟨h.1, h.2.1 rfl⟩

/-- One entry of `self.category_stats`, as built in
`WoltComprehensiveScraper.scrape_all_products` (fields `name`, `path`,
`item_count`, `new_items`; the dict carries no outcome field). -/
structure CategoryStat where
  statName : String
  statPath : String
  item_count : Nat
  new_items : Nat
deriving Repr, DecidableEq

/-- The stats accumulator `self.category_stats`, a dict keyed by slug. -/
abbrev StatMap := List (String × CategoryStat)

/-- Dict assignment `self.category_stats[slug] = stat` (replace if the key
exists, else append). -/
def setStat : StatMap → String → CategoryStat → StatMap
  | [], slug, st => [(slug, st)]
  | (k, v) :: rest, slug, st =>
      if k = slug then (k, st) :: rest else (k, v) :: setStat rest slug st

/-- Dict lookup in the stats map. -/
def findStat : StatMap → String → Option CategoryStat
  | [], _ => none
  | (k, v) :: rest, slug => if k = slug then some v else findStat rest slug

/-- Transport outcome of one category fetch, as distinguished by the
exception handling of `WoltComprehensiveScraper.get_category_items`: a 2xx
JSON body with an items list, a 404, or any other failure (timeout, non-2xx,
malformed body). -/
inductive FetchResult where
  | success (items : List Item)
  | notFound
  | transportError
deriving Repr, DecidableEq

/-- `WoltComprehensiveScraper.get_category_items`: on success the items are
annotated with the querying category slug and name and returned; a 404 returns
the empty list (before any annotation); any other error is caught, logged and
also yields the empty list. -/
def get_category_items (slug catName : String) (r : FetchResult) : List Item :=
  match r with
  | .success items =>
      items.map fun it =>
        { it with categorySlug := some slug, categoryName := some catName }
  | .notFound => []
  | .transportError => []

/-- One category as the orchestrator sees it: the flattened record fields it
reads, plus the transport outcome its fetch produces in this run. -/
structure CatTask where
  slug : String
  catName : String
  catPath : String
  result : FetchResult
deriving Repr, DecidableEq

/-- The mutable state of `WoltComprehensiveScraper` that
`scrape_all_products` touches: the product dict and the per-category stats. -/
structure ScrapeState where
  products : Store
  stats : StatMap
deriving Repr, DecidableEq

/-- The loop body of `WoltComprehensiveScraper.scrape_all_products` for one
category: fetch its items; when the list is non-empty, dedup-merge it into the
product dict and record a CategoryStat under the category slug; when it is
empty (genuinely empty, 404, or transport error) nothing is recorded. -/
def scrapeCategory (st : ScrapeState) (cat : CatTask) : ScrapeState :=
  let items := get_category_items cat.slug cat.catName cat.result
  if items = [] then st
  else
    let merged := mergeItems st.products items
    { products := merged.1,
      stats := setStat st.stats cat.slug
        { statName := cat.catName, statPath := cat.catPath,
          item_count := items.length, new_items := merged.2 } }

/-- `WoltComprehensiveScraper.scrape_all_products`: visit every flattened
category in order, merging each fetched batch. -/
def scrape_all_products (st : ScrapeState) (cats : List CatTask) : ScrapeState :=
  cats.foldl scrapeCategory st

/-- The completeness verdict of `verify_completeness`. -/
inductive Verdict where
  | Confident
  | Suspect
deriving Repr, DecidableEq

/-- The flagged-category list of `WoltComprehensiveScraper.verify_completeness`:
the recorded stats whose item count reaches the 500-item page cap. -/
def large_categories (stats : StatMap) : StatMap :=
  stats.filter fun p => 500 ≤ p.2.item_count

/-- The verdict of `verify_completeness`: a warning (Suspect) exactly when the
flagged list is non-empty, otherwise the coverage-appears-complete message
(Confident). -/
def completenessVerdict (stats : StatMap) : Verdict :=
  if large_categories stats = [] then .Confident else .Suspect

/-- The loop of `WoltComprehensiveScraper.supplement_with_search` over the
responses to the configured queries, in order: merge each batch; stop
immediately after the first batch that contributes 0 new items.  Returns the
final store and the number of queries actually issued. -/
def sweepGo (store : Store) : List (List Item) → Store × Nat
  | [] => (store, 0)
  | items :: rest =>
      let merged := mergeItems store items
      if merged.2 = 0 then (merged.1, 1)
      else
        let cont := sweepGo merged.1 rest
        (cont.1, cont.2 + 1)

/-- The new-item counts every query of the sweep would contribute if none of
them stopped the loop (the full merge trace, for stating the early-stop
property). -/
def newCountsAll (store : Store) : List (List Item) → List Nat
  | [] => []
  | items :: rest =>
      let merged := mergeItems store items
      merged.2 :: newCountsAll merged.1 rest

theorem large_categories_mem (stats : StatMap) (p : String × CategoryStat) :
    p ∈ large_categories stats ↔ p ∈ stats ∧ 500 ≤ p.2.item_count := by
  simp [large_categories, List.mem_filter]

theorem large_categories_nil (stats : StatMap) :
    large_categories stats = [] ↔ ∀ p ∈ stats, p.2.item_count < 500 := by
  constructor
  · intro h p hp
    by_contra hge
    have : p ∈ large_categories stats :=
      (large_categories_mem stats p).mpr ⟨hp, Nat.le_of_not_lt hge⟩
    rw [h] at this
    simp at this
  · intro h
    rcases he : large_categories stats with _ | ⟨q, rest⟩
    · rfl
    · have hq : q ∈ large_categories stats := by rw [he]; exact List.mem_cons_self q rest
      have := (large_categories_mem stats q).mp hq
      exact absurd this.2 (Nat.not_le_of_lt (h q this.1))

/-- C2: the completeness verdict is Suspect exactly when some recorded
CategoryStat has an item count of at least the 500-item page cap; every stat
reaching the cap appears in the flagged list; and when no stat reaches the
cap the verdict is Confident. -/
theorem c2_suspect_verdict (stats : StatMap) :
    (completenessVerdict stats = .Suspect ↔ ∃ p ∈ stats, 500 ≤ p.2.item_count) ∧
    (∀ p ∈ stats, 500 ≤ p.2.item_count → p ∈ large_categories stats) ∧
    ((∀ p ∈ stats, p.2.item_count < 500) → completenessVerdict stats = .Confident) := by
  refine ⟨?_, ?_, ?_⟩
  · unfold completenessVerdict
    by_cases h : large_categories stats = []
    · simp only [h, if_pos]
      constructor
      · intro hc; cases hc
      · rintro ⟨p, hp, hge⟩
        have := (large_categories_nil stats).mp h p hp
        exact absurd hge (Nat.not_le_of_lt this)
    · simp only [h, if_neg, if_false]
      constructor
      · intro _
        rcases he : large_categories stats with _ | ⟨q, rest⟩
        · exact absurd he h
        · have hq : q ∈ large_categories stats := by
            rw [he]; exact List.mem_cons_self q rest
          have hm := (large_categories_mem stats q).mp hq
          exact ⟨q, hm.1, hm.2⟩
      · intro _; trivial
  · intro p hp hge
    exact (large_categories_mem stats p).mpr ⟨hp, hge⟩
  · intro h
    unfold completenessVerdict
    rw [if_pos ((large_categories_nil stats).mpr h)]

/-- Witness for C2 at concrete stat maps: one stat at the cap makes the
verdict Suspect, and a capless map is Confident. -/
theorem c2_suspect_verdict_witness :
    completenessVerdict [("big", ⟨"Big", "Big", 500, 12⟩)] = .Suspect ∧
    completenessVerdict [("small", ⟨"Small", "Small", 3, 3⟩)] = .Confident := by
  constructor
  · exact (c2_suspect_verdict [("big", ⟨"Big", "Big", 500, 12⟩)]).1.mpr
      ⟨("big", ⟨"Big", "Big", 500, 12⟩), by simp, by decide⟩
  · exact (c2_suspect_verdict [("small", ⟨"Small", "Small", 3, 3⟩)]).2.2
      (by intro p hp; simp at hp; subst hp; decide)

/-- C3: the Discovery Sweep issues exactly k queries when the k-th query is
the first whose merge yields 0 new items (1-indexed; every earlier query
yields at least one new item), and issues the whole configured list when no
query yields 0 new items. -/
theorem c3_sweep_early_stop (store : Store) (batches : List (List Item)) :
    (∀ k, (newCountsAll store batches)[k]? = some 0 →
      (∀ j, j < k → ∀ v, (newCountsAll store batches)[j]? = some v → 0 < v) →
      (sweepGo store batches).2 = k + 1) ∧
    ((∀ v ∈ newCountsAll store batches, 0 < v) →
      (sweepGo store batches).2 = batches.length) := by
  induction batches generalizing store with
  | nil =>
      refine ⟨?_, ?_⟩
      · intro k hk
        simp [newCountsAll] at hk
      · intro _
        rfl
  | cons items rest ih =>
      refine ⟨?_, ?_⟩
      · intro k hk hprev
        match k with
        | 0 =>
            simp only [newCountsAll, List.getElem?_cons_zero, Option.some.injEq] at hk
            simp [sweepGo, hk]
        | Nat.succ k0 =>
            have h0 : 0 < (mergeItems store items).2 := by
              refine hprev 0 (Nat.succ_pos k0) (mergeItems store items).2 ?_
              simp [newCountsAll]
            have hne : (mergeItems store items).2 ≠ 0 := Nat.pos_iff_ne_zero.mp h0
            simp only [newCountsAll, List.getElem?_cons_succ] at hk
            have hprev0 : ∀ j, j < k0 →
                ∀ v, (newCountsAll (mergeItems store items).1 rest)[j]? = some v → 0 < v := by
              intro j hj v hv
              refine hprev (j + 1) (Nat.succ_lt_succ hj) v ?_
              simpa [newCountsAll] using hv
            have := (ih (mergeItems store items).1).1 k0 hk hprev0
            simp only [sweepGo, hne, if_false]
            omega
      · intro hall
        have h0 : 0 < (mergeItems store items).2 := by
          refine hall (mergeItems store items).2 ?_
          simp [newCountsAll]
        have hne : (mergeItems store items).2 ≠ 0 := Nat.pos_iff_ne_zero.mp h0
        have htail : ∀ v ∈ newCountsAll (mergeItems store items).1 rest, 0 < v := by
          intro v hv
          refine hall v ?_
          simp [newCountsAll, hv]
        have := (ih (mergeItems store items).1).2 htail
        simp only [sweepGo, hne, if_false, List.length_cons]
        omega

/-- Witness for C3: with an already-seen item the first query yields 0 new
items and the sweep stops after exactly one of the three configured queries;
with all-fresh responses it issues the whole list. -/
theorem c3_sweep_early_stop_witness :
    (sweepGo [("a", { id := some "a" })]
      [[{ id := some "a" }], [{ id := some "b" }], [{ id := some "c" }]]).2 = 1 ∧
    (sweepGo [] [[{ id := some "a" }], [{ id := some "b" }]]).2 = 2 := by
  constructor
  · exact (c3_sweep_early_stop [("a", { id := some "a" })]
      [[{ id := some "a" }], [{ id := some "b" }], [{ id := some "c" }]]).1 0
      (by decide) (by intro j hj v hv; omega)
  · exact (c3_sweep_early_stop []
      [[{ id := some "a" }], [{ id := some "b" }]]).2 (by decide)

theorem scrapeCategory_empty (st : ScrapeState) (cat : CatTask)
    (h : get_category_items cat.slug cat.catName cat.result = []) :
    scrapeCategory st cat = st := by
  simp [scrapeCategory, h]

theorem scrape_skips_empty (cats : List CatTask) (st : ScrapeState) :
    scrape_all_products st cats
      = scrape_all_products st (cats.filter fun c =>
          get_category_items c.slug c.catName c.result ≠ []) := by
  induction cats generalizing st with
  | nil => rfl
  | cons c rest ih =>
      by_cases h : get_category_items c.slug c.catName c.result = []
      · have hstep : scrapeCategory st c = st := scrapeCategory_empty st c h
        simp only [scrape_all_products, List.foldl_cons, hstep,
          List.filter_cons, h]
        simpa [scrape_all_products] using ih st
      · simp only [scrape_all_products, List.filter_cons, h, List.foldl_cons]
        simp only [ne_eq, h, not_false_eq_true, decide_True, List.foldl_cons]
        simpa [scrape_all_products] using ih (scrapeCategory st c)

/-- C4: a transport failure on one category never aborts the harvest: the
run over the categories before the failing one continues through the failing
category unchanged and then visits every later category normally, and the
whole run computes exactly what it computes on the fetch-yielding categories
alone. -/
theorem c4_error_isolation (st : ScrapeState) (pre post : List CatTask)
    (c : CatTask) (herr : c.result = .transportError) :
    (scrape_all_products st (pre ++ c :: post)
      = scrape_all_products (scrape_all_products st pre) post) ∧
    (∀ (st2 : ScrapeState) (cats : List CatTask),
      scrape_all_products st2 cats
        = scrape_all_products st2 (cats.filter fun c2 =>
            get_category_items c2.slug c2.catName c2.result ≠ [])) := by
  constructor
  · have hempty : get_category_items c.slug c.catName c.result = [] := by
      simp [get_category_items, herr]
    unfold scrape_all_products
    rw [List.foldl_append, List.foldl_cons,
      scrapeCategory_empty (List.foldl scrapeCategory st pre) c hempty]
  · intro st2 cats
    exact scrape_skips_empty cats st2

/-- Witness for C4: the example of the spec — category A yields 5 items,
category B fails with a transport error, category C yields 3 items with
disjoint ids; the run proceeds past B and ends with 8 unique products. -/
theorem c4_error_isolation_witness :
    (scrape_all_products ⟨[], []⟩
        [⟨"a", "A", "A", .success [{ id := some "a1" }, { id := some "a2" },
            { id := some "a3" }, { id := some "a4" }, { id := some "a5" }]⟩,
         ⟨"b", "B", "B", .transportError⟩,
         ⟨"c", "C", "C", .success [{ id := some "c1" }, { id := some "c2" },
            { id := some "c3" }]⟩]
      = scrape_all_products
          (scrape_all_products ⟨[], []⟩
            [⟨"a", "A", "A", .success [{ id := some "a1" }, { id := some "a2" },
                { id := some "a3" }, { id := some "a4" }, { id := some "a5" }]⟩])
          [⟨"c", "C", "C", .success [{ id := some "c1" }, { id := some "c2" },
              { id := some "c3" }]⟩]) ∧
    (scrape_all_products ⟨[], []⟩
        [⟨"a", "A", "A", .success [{ id := some "a1" }, { id := some "a2" },
            { id := some "a3" }, { id := some "a4" }, { id := some "a5" }]⟩,
         ⟨"b", "B", "B", .transportError⟩,
         ⟨"c", "C", "C", .success [{ id := some "c1" }, { id := some "c2" },
            { id := some "c3" }]⟩]).products.length = 8 := by
  constructor
  · exact (c4_error_isolation ⟨[], []⟩
      [⟨"a", "A", "A", .success [{ id := some "a1" }, { id := some "a2" },
          { id := some "a3" }, { id := some "a4" }, { id := some "a5" }]⟩]
      [⟨"c", "C", "C", .success [{ id := some "c1" }, { id := some "c2" },
          { id := some "c3" }]⟩]
      ⟨"b", "B", "B", .transportError⟩ rfl).1
  · rfl

theorem mergeItem_count_le (store : Store) (item : Item) :
    (mergeItem store item).2 ≤ 1 := by
  rcases hid : item.id with _ | k
  · simp [mergeItem, hid]
  · by_cases he : k = ""
    · simp [mergeItem, hid, he]
    · rcases hf : findId store k with _ | q
      · simp [mergeItem, hid, he, hf]
      · simp [mergeItem, hid, he, hf]

theorem mergeItems_count_le (items : List Item) (store : Store) :
    (mergeItems store items).2 ≤ items.length := by
  induction items generalizing store with
  | nil => simp [mergeItems]
  | cons item rest ih =>
      simp only [mergeItems, List.length_cons]
      have h1 := mergeItem_count_le store item
      have h2 := ih (mergeItem store item).1
      omega

theorem setStat_preserves (stats : StatMap) (slug : String) (st : CategoryStat)
    (P : CategoryStat → Prop) (hall : ∀ p ∈ stats, P p.2) (hst : P st) :
    ∀ p ∈ setStat stats slug st, P p.2 := by
  induction stats with
  | nil =>
      intro p hp
      simp only [setStat, List.mem_singleton] at hp
      subst hp
      exact hst
  | cons hd tl ih =>
      obtain ⟨k, v⟩ := hd
      intro p hp
      by_cases hk : k = slug
      · simp only [setStat, hk, if_pos, List.mem_cons] at hp
        rcases hp with hp | hp
        · subst hp; exact hst
        · exact hall p (List.mem_cons_of_mem _ hp)
      · simp only [setStat, hk, if_neg, if_false, List.mem_cons] at hp
        rcases hp with hp | hp
        · subst hp; exact hall (k, v) (List.mem_cons_self _ _)
        · exact ih (fun q hq => hall q (List.mem_cons_of_mem _ hq)) p hp

theorem setStat_find (stats : StatMap) (slug : String) (st : CategoryStat) :
    findStat (setStat stats slug st) slug = some st := by
  induction stats with
  | nil => simp [setStat, findStat]
  | cons hd tl ih =>
      obtain ⟨k, v⟩ := hd
      by_cases hk : k = slug
      · simp [setStat, findStat, hk]
      · simp [setStat, findStat, hk, ih]

theorem scrapeCategory_stat_inv (st : ScrapeState) (cat : CatTask)
    (hinv : ∀ p ∈ st.stats, p.2.new_items ≤ p.2.item_count) :
    ∀ p ∈ (scrapeCategory st cat).stats, p.2.new_items ≤ p.2.item_count := by
  unfold scrapeCategory
  by_cases h : get_category_items cat.slug cat.catName cat.result = []
  · simpa [h] using hinv
  · simp only [h, if_neg, if_false]
    exact setStat_preserves st.stats cat.slug _
      (fun c => c.new_items ≤ c.item_count) hinv
      (mergeItems_count_le (get_category_items cat.slug cat.catName cat.result) st.products)

theorem scrape_stat_inv (cats : List CatTask) (st : ScrapeState)
    (hinv : ∀ p ∈ st.stats, p.2.new_items ≤ p.2.item_count) :
    ∀ p ∈ (scrape_all_products st cats).stats, p.2.new_items ≤ p.2.item_count := by
  induction cats generalizing st with
  | nil => exact hinv
  | cons c rest ih =>
      simp only [scrape_all_products, List.foldl_cons]
      exact ih (scrapeCategory st c) (scrapeCategory_stat_inv st c hinv)

/-- C5 counterexample: a category whose fetch fails with a transport error is
queried by the orchestrator, yet no CategoryStat at all is recorded for it —
so it is false that exactly one CategoryStat carrying a Success /
EmptyNotFound / TransportError outcome is recorded per queried category (the
recorded stat dict moreover has no outcome field). -/
theorem c5_counterexample :
    (scrape_all_products ⟨[], []⟩ [⟨"b", "B", "B", .transportError⟩]).stats = []
      ∧ (scrape_all_products ⟨[], []⟩ [⟨"e", "E", "E", .success []⟩]).stats = [] := by
  exact ⟨rfl, rfl⟩

/-- C5 amended: a CategoryStat (name, path, item count, new-item count — no
outcome field) is recorded exactly for the queried categories whose fetched
item list is non-empty; an empty fetch (empty category, 404, or transport
error) records nothing and leaves the state unchanged; a 404 yields the empty
item list without raising; and every recorded stat satisfies
new_items <= item_count. -/
theorem c5_stats_amended (st : ScrapeState) (cats : List CatTask)
    (c : CatTask) (s n : String)
    (hinv : ∀ p ∈ st.stats, p.2.new_items ≤ p.2.item_count) :
    (∀ p ∈ (scrape_all_products st cats).stats, p.2.new_items ≤ p.2.item_count) ∧
    (get_category_items c.slug c.catName c.result = [] → scrapeCategory st c = st) ∧
    (get_category_items c.slug c.catName c.result ≠ [] →
      findStat (scrapeCategory st c).stats c.slug
        = some ⟨c.catName, c.catPath,
            (get_category_items c.slug c.catName c.result).length,
            (mergeItems st.products
              (get_category_items c.slug c.catName c.result)).2⟩) ∧
    get_category_items s n .notFound = [] := by
  refine ⟨scrape_stat_inv cats st hinv, scrapeCategory_empty st c, ?_, rfl⟩
  intro h
  unfold scrapeCategory
  simp only [h, if_neg, if_false]
  exact setStat_find st.stats c.slug _

/-- Witness for C5 amended at a concrete state and categories: a successful
category records its stat under its slug, a 404 records nothing. -/
theorem c5_stats_amended_witness :
    (∀ p ∈ (scrape_all_products ⟨[], []⟩
        [⟨"a", "A", "A", .success [{ id := some "a1" }, { id := some "a1" }]⟩]).stats,
      p.2.new_items ≤ p.2.item_count) ∧
    findStat (scrapeCategory ⟨[], []⟩
        ⟨"a", "A", "A", .success [{ id := some "a1" }, { id := some "a1" }]⟩).stats "a"
      = some ⟨"A", "A", 2, 1⟩ ∧
    scrapeCategory ⟨[], []⟩ ⟨"nf", "NF", "NF", .notFound⟩ = ⟨[], []⟩ := by
  have h := c5_stats_amended ⟨[], []⟩
    [⟨"a", "A", "A", .success [{ id := some "a1" }, { id := some "a1" }]⟩]
    ⟨"a", "A", "A", .success [{ id := some "a1" }, { id := some "a1" }]⟩
    "nf" "NF" (by intro p hp; simp at hp)
  refine ⟨h.1, ?_, ?_⟩
  · have h2 := h.2.2.1 (by decide)
    exact h2
  · have h3 := c5_stats_amended ⟨[], []⟩ [] ⟨"nf", "NF", "NF", .notFound⟩ "x" "X"
      (by intro p hp; simp at hp)
    exact h3.2.1 rfl

/-- A node of the nested category document returned by the assortment
endpoint, restricted to the keys the flatteners read: identifier, display
name, slug, description, the image list (each entry its optional url), the
item id list, and the child nodes. -/
inductive RawCat : Type where
  | node (catId catName catSlug catDescr : Option String)
      (images : List (Option String)) (item_ids : List String)
      (subcategories : List RawCat) : RawCat

/-- The subcategory list of a node. -/
def RawCat.subs : RawCat → List RawCat
  | .node _ _ _ _ _ _ s => s

/-- The number of nodes of a nested category document. -/
def nodeCountList : List RawCat → Nat
  | [] => 0
  | .node _ _ _ _ _ _ subs :: rest => 1 + nodeCountList subs + nodeCountList rest

/-- One flattened category record of
`WoltComprehensiveScraper._flatten_categories`.  String-valued keys that the
Python code leaves as None are `none` here; `description` is defaulted to the
empty string by the code itself. -/
structure CatInfo where
  id : Option String
  name : Option String
  slug : Option String
  description : String
  path : Option String
  level : Nat
  parent_path : Option String
  image_url : Option String
  has_subcategories : Bool
deriving Repr, DecidableEq

/-- The `cat_info` dict built for one node: the path is the parent path plus
a slash plus the f-string rendering of the name when the parent path is
truthy, and otherwise the raw (possibly missing) name; the image url is the
first image entry of a truthy image list. -/
def mkCatInfo (catId catName catSlug catDescr : Option String)
    (images : List (Option String)) (subs : List RawCat)
    (parentPath : Option String) (level : Nat) : CatInfo :=
  { id := catId, name := catName, slug := catSlug,
    description := catDescr.getD "",
    path := if pyTruthy parentPath then
        some (pyShow parentPath ++ "/" ++ pyShow catName)
      else catName,
    level := level, parent_path := parentPath,
    image_url := match images with
      | [] => none
      | u :: _ => u,
    has_subcategories := !subs.isEmpty }

/-- The `cat_info` record of one raw node. -/
def catInfoOf : RawCat → Option String → Nat → CatInfo
  | .node i nm sl de im _ subs, pp, l => mkCatInfo i nm sl de im subs pp l

/-- `WoltComprehensiveScraper._flatten_categories`: emit each node and then,
when its subcategory list is truthy, its recursively flattened subtree, with
the node path as the subtree parent path and the level increased by one.  The
top-level call uses the empty parent path and level 0. -/
def flatten_categories : List RawCat → Option String → Nat → List CatInfo
  | [], _, _ => []
  | .node i nm sl de im ii subs :: rest, parentPath, level =>
      let info := mkCatInfo i nm sl de im subs parentPath level
      (info :: (if subs.isEmpty then []
          else flatten_categories subs info.path (level + 1)))
        ++ flatten_categories rest parentPath level

theorem flatten_categories_length (cats : List RawCat) (pp : Option String)
    (l : Nat) : (flatten_categories cats pp l).length = nodeCountList cats := by
  induction cats, pp, l using flatten_categories.induct with
  | case1 _ _ => simp [flatten_categories, nodeCountList]
  | case2 i nm sl de im ii subs rest pp l ih1 ih2 =>
      by_cases he : subs.isEmpty
      · have hs : subs = [] := List.isEmpty_iff.mp he
        subst hs
        simp [flatten_categories, nodeCountList, he, ih2]
        omega
      · simp [flatten_categories, nodeCountList, he, ih1, ih2]
        omega

theorem flatten_categories_singleton (c : RawCat) (pp : Option String) (l : Nat) :
    flatten_categories [c] pp l
      = catInfoOf c pp l
          :: flatten_categories c.subs (catInfoOf c pp l).path (l + 1) := by
  obtain ⟨i, nm, sl, de, im, ii, subs⟩ := c
  by_cases he : subs.isEmpty
  · have hs : subs = [] := List.isEmpty_iff.mp he
    subst hs
    simp [flatten_categories, catInfoOf, RawCat.subs]
  · simp [flatten_categories, catInfoOf, RawCat.subs, he]

theorem flatten_categories_cons (c : RawCat) (rest : List RawCat)
    (pp : Option String) (l : Nat) :
    flatten_categories (c :: rest) pp l
      = flatten_categories [c] pp l ++ flatten_categories rest pp l := by
  obtain ⟨i, nm, sl, de, im, ii, subs⟩ := c
  simp [flatten_categories]

/-- C6 amended: flattening emits the nodes in pre-order — each node
immediately followed by its entire flattened subtree, sibling source order
preserved, every node exactly once (the output length is the node count) —
and a node lacking a name or identifier is still emitted, with its missing
fields kept as None (null) rather than replaced by empty strings; the
function is pure, so flattening the same document twice yields identical
output. -/
theorem c6_flatten_preorder_amended (cats rest : List RawCat) (c : RawCat)
    (pp : Option String) (l : Nat) :
    ((flatten_categories cats pp l).length = nodeCountList cats) ∧
    (flatten_categories (c :: rest) pp l
      = flatten_categories [c] pp l ++ flatten_categories rest pp l) ∧
    (flatten_categories [c] pp l
      = catInfoOf c pp l
          :: flatten_categories c.subs (catInfoOf c pp l).path (l + 1)) ∧
    ((flatten_categories (c :: rest) pp l).head? = some (catInfoOf c pp l)) ∧
    (flatten_categories cats pp l = flatten_categories cats pp l) :=
  ⟨flatten_categories_length cats pp l,
   flatten_categories_cons c rest pp l,
   flatten_categories_singleton c pp l,
   by rw [flatten_categories_cons c rest pp l, flatten_categories_singleton c pp l]
      rfl,
   rfl⟩

/-- C6 counterexample: a node with no name and no identifier is emitted, but
its fields are None (null), not empty strings — the emitted record has
name = none and id = none, and none is not the empty string. -/
theorem c6_counterexample :
    (flatten_categories [.node none none none none [] [] []] (some "") 0).length = 1 ∧
    (flatten_categories [.node none none none none [] [] []] (some "") 0).map CatInfo.name
      = [none] ∧
    (flatten_categories [.node none none none none [] [] []] (some "") 0).map CatInfo.id
      = [none] ∧
    (none : Option String) ≠ some "" := by
  refine ⟨?_, ?_, ?_, by decide⟩
  · simp [flatten_categories, mkCatInfo]
  · simp [flatten_categories, mkCatInfo, pyTruthy]
  · simp [flatten_categories, mkCatInfo, pyTruthy]

/-- The number of slash separators of a string. -/
def slashCount (s : String) : Nat := s.toList.count '/'

theorem slashCount_append (a b : String) :
    slashCount (a ++ b) = slashCount a + slashCount b := by
  simp [slashCount, String.toList, String.data_append, List.count_append]

/-- A present, non-empty category name containing no slash separator — the
condition under which the level/path arithmetic of the flattener is exact. -/
def goodName : Option String → Bool
  | none => false
  | some s => s ≠ "" && slashCount s == 0

/-- Every node of the document has a good name. -/
def goodNamesList : List RawCat → Bool
  | [] => true
  | .node _ nm _ _ _ _ subs :: rest =>
      goodName nm && goodNamesList subs && goodNamesList rest

theorem flatten_level_aux (cats : List RawCat) (pp : Option String) (l : Nat) :
    goodNamesList cats = true →
    (∃ q, pp = some q ∧ slashCount q + (if q = "" then 0 else 1) = l ∧
      (q = "" ↔ l = 0)) →
    ∀ r ∈ flatten_categories cats pp l,
      (∃ s, r.path = some s ∧ s ≠ "" ∧ slashCount s = r.level) ∧
      (r.level = l ∧ r.parent_path = pp ∨
        ∃ q2 ∈ flatten_categories cats pp l,
          r.parent_path = q2.path ∧ q2.level + 1 = r.level) := by
  induction cats, pp, l using flatten_categories.induct with
  | case1 pp l =>
      intro _ _ r hr
      simp [flatten_categories] at hr
  | case2 i nm sl de im ii subs rest pp l info ih1 ih2 =>
      intro hnames hpp r hr
      obtain ⟨q, rfl, hcnt, hiff⟩ := hpp
      have hg : (goodName nm && goodNamesList subs && goodNamesList rest) = true := by
        simpa [goodNamesList] using hnames
      rw [Bool.and_eq_true, Bool.and_eq_true] at hg
      obtain ⟨⟨hgn, hgsubs⟩, hgrest⟩ := hg
      obtain ⟨s, rfl⟩ : ∃ s, nm = some s := by
        cases nm with
        | none => simp [goodName] at hgn
        | some s => exact ⟨s, rfl⟩
      rw [goodName, Bool.and_eq_true, beq_iff_eq] at hgn
      obtain ⟨hs1, hs2⟩ := hgn
      have hs1 : s ≠ "" := by simpa using hs1
      have hinfo : info = mkCatInfo i (some s) sl de im subs (some q) l := rfl
      have hlev : info.level = l := by simp [hinfo, mkCatInfo]
      have hpar : info.parent_path = some q := by simp [hinfo, mkCatInfo]
      have hpath : ∃ p2, info.path = some p2 ∧ p2 ≠ "" ∧ slashCount p2 = l := by
        by_cases hq : q = ""
        · subst hq
          have hl0 : l = 0 := hiff.mp rfl
          refine ⟨s, ?_, hs1, ?_⟩
          · simp [hinfo, mkCatInfo, pyTruthy]
          · rw [hs2, hl0]
        · have hq' : pyTruthy (some q) = true := by simp [pyTruthy, hq]
          have hl : slashCount q + 1 = l := by
            rw [if_neg hq] at hcnt
            exact hcnt
          refine ⟨q ++ "/" ++ s, ?_, ?_, ?_⟩
          · simp [hinfo, mkCatInfo, pyTruthy, hq, pyShow]
          · intro habs
            have hz : slashCount (q ++ "/" ++ s) = 0 := by
              rw [habs]
              rfl
            rw [slashCount_append, slashCount_append] at hz
            have hone : slashCount "/" = 1 := rfl
            omega
          · rw [slashCount_append, slashCount_append, hs2]
            have hone : slashCount "/" = 1 := rfl
            omega
      obtain ⟨p2, hp2, hp2ne, hp2cnt⟩ := hpath
      have hflat : flatten_categories (RawCat.node i (some s) sl de im ii subs :: rest)
          (some q) l
          = info :: (flatten_categories subs info.path (l + 1)
              ++ flatten_categories rest (some q) l) := by
        rw [flatten_categories_cons, flatten_categories_singleton]
        simp [catInfoOf, RawCat.subs, hinfo]
      rw [hflat] at hr ⊢
      rcases List.mem_cons.mp hr with hr | hr
      · subst hr
        refine ⟨⟨p2, hp2, hp2ne, by rw [hlev]; exact hp2cnt⟩, Or.inl ⟨hlev, hpar⟩⟩
      · rcases List.mem_append.mp hr with hr | hr
        · have hpp' : ∃ q2, info.path = some q2 ∧
              slashCount q2 + (if q2 = "" then 0 else 1) = l + 1 ∧
              (q2 = "" ↔ l + 1 = 0) := by
            refine ⟨p2, hp2, ?_, ?_⟩
            · rw [if_neg hp2ne]
              omega
            · constructor
              · intro h; exact absurd h hp2ne
              · intro h; omega
          have ihr := ih1 hgsubs hpp' r hr
          refine ⟨ihr.1, ?_⟩
          rcases ihr.2 with ⟨hrl, hrp⟩ | ⟨q2, hq2m, hq2a, hq2b⟩
          · exact Or.inr ⟨info, List.mem_cons_self _ _,
              by rw [hrp], by rw [hlev, hrl]⟩
          · exact Or.inr ⟨q2,
              List.mem_cons_of_mem _ (List.mem_append_left _ hq2m), hq2a, hq2b⟩
        · have ihr := ih2 hgrest ⟨q, rfl, hcnt, hiff⟩ r hr
          refine ⟨ihr.1, ?_⟩
          rcases ihr.2 with ⟨hrl, hrp⟩ | ⟨q2, hq2m, hq2a, hq2b⟩
          · exact Or.inl ⟨hrl, hrp⟩
          · exact Or.inr ⟨q2,
              List.mem_cons_of_mem _ (List.mem_append_right _ hq2m), hq2a, hq2b⟩

/-- C7 amended: for the flattener of the comprehensive scraper, when every
node of the document carries a non-empty name free of slash separators, every
emitted record has level equal to the number of slash separators of its path,
root records (level 0) have the empty parent path, and every non-root record
has parent_path equal to the path of an emitted record one level shallower —
its immediate ancestor; the variant flattener of the basic scraper
(extract_all_categories) does not satisfy the level equation, as it sets
level to the slash count of the parent path (one less than the slashes of
the path of a non-root record) and records no parent path at all. -/
theorem c7_level_path_amended (cats : List RawCat)
    (hnames : goodNamesList cats = true) :
    ∀ r ∈ flatten_categories cats (some "") 0,
      (∃ s, r.path = some s ∧ slashCount s = r.level) ∧
      (r.level = 0 → r.parent_path = some "") ∧
      (r.level ≠ 0 → ∃ q ∈ flatten_categories cats (some "") 0,
        r.parent_path = q.path ∧ q.level + 1 = r.level) := by
  intro r hr
  have hroot : (∃ q, (some "" : Option String) = some q ∧
      slashCount q + (if q = "" then 0 else 1) = 0 ∧ (q = "" ↔ 0 = 0)) :=
    ⟨"", rfl, by simp [slashCount], by simp⟩
  have h := flatten_level_aux cats (some "") 0 hnames hroot r hr
  obtain ⟨⟨s, hp, _, hsl⟩, hdisj⟩ := h
  refine ⟨⟨s, hp, hsl⟩, ?_, ?_⟩
  · intro h0
    rcases hdisj with ⟨_, hpar⟩ | ⟨q, _, _, hq⟩
    · exact hpar
    · omega
  · intro h0
    rcases hdisj with ⟨hl, _⟩ | ⟨q, hqm, hqa, hqb⟩
    · exact absurd hl h0
    · exact ⟨q, hqm, hqa, hqb⟩

/-- Witness for C7 amended: in the two-level document with root Fruits and
child Apples, the emitted child record has path Fruits/Apples with one slash
separator and level 1, and its parent path is the path of the root record. -/
theorem c7_level_path_amended_witness :
    (∃ s, (⟨some "i2", some "Apples", some "apples", "", some "Fruits/Apples",
        1, some "Fruits", none, false⟩ : CatInfo).path = some s ∧
      slashCount s = 1) ∧
    ((1 : Nat) ≠ 0 → ∃ q ∈ flatten_categories
        [.node (some "i1") (some "Fruits") (some "fruits") none [] []
          [.node (some "i2") (some "Apples") (some "apples") none [] [] []]]
        (some "") 0,
      (⟨some "i2", some "Apples", some "apples", "", some "Fruits/Apples",
        1, some "Fruits", none, false⟩ : CatInfo).parent_path = q.path ∧
      q.level + 1 = 1) := by
  have h := c7_level_path_amended
    [.node (some "i1") (some "Fruits") (some "fruits") none [] []
      [.node (some "i2") (some "Apples") (some "apples") none [] [] []]]
    (by simp [goodNamesList, goodName, slashCount])
    ⟨some "i2", some "Apples", some "apples", "", some "Fruits/Apples",
      1, some "Fruits", none, false⟩
    (by simp [flatten_categories, mkCatInfo, pyTruthy, pyShow])
  exact ⟨h.1, h.2.2⟩

/-- One flattened record of `WoltBravoScraper.extract_all_categories` (that
variant records no parent path and computes the level from the parent path
rather than from a depth counter). -/
structure BravoCatInfo where
  id : Option String
  name : Option String
  slug : Option String
  description : String
  path : Option String
  level : Nat
  has_subcategories : Bool
  item_ids : List String
  image_url : Option String
deriving Repr, DecidableEq

/-- The slash count of the parent path string as computed by
`parent_path.count` in `WoltBravoScraper.extract_all_categories`; a None
parent (possible only below a root with a missing name) would raise in
Python and is embedded as 0, a case unreachable for the documents considered
here. -/
def pySlashCount : Option String → Nat
  | none => 0
  | some s => slashCount s

/-- `WoltBravoScraper.extract_all_categories`: same recursive walk as the
comprehensive flattener, but the level of a record is the slash count of its
parent path and no parent_path key is stored. -/
def extract_all_categories : List RawCat → Option String → List BravoCatInfo
  | [], _ => []
  | .node i nm sl de im ii subs :: rest, parentPath =>
      let path := if pyTruthy parentPath then
          some (pyShow parentPath ++ "/" ++ pyShow nm)
        else nm
      let info : BravoCatInfo :=
        { id := i, name := nm, slug := sl, description := de.getD "",
          path := path, level := pySlashCount parentPath,
          has_subcategories := !subs.isEmpty, item_ids := ii,
          image_url := match im with | [] => none | u :: _ => u }
      (info :: (if subs.isEmpty then []
          else extract_all_categories subs path))
        ++ extract_all_categories rest parentPath

/-- C7 counterexample: on the two-level document with root Fruits and child
Apples (names present, non-empty, slash-free), extract_all_categories emits
the child with level 0 although its path Fruits/Apples contains one slash
separator — so the claim that level equals the number of slash separators of
the path fails for the flattened records of this source. -/
theorem c7_counterexample :
    (extract_all_categories
        [.node (some "i1") (some "Fruits") (some "fruits") none [] []
          [.node (some "i2") (some "Apples") (some "apples") none [] [] []]]
        (some "")).map (fun r => (r.level, r.path))
      = [(0, some "Fruits"), (0, some "Fruits/Apples")] ∧
    slashCount "Fruits/Apples" = 1 := by
  constructor
  · simp [extract_all_categories, pySlashCount, pyTruthy, pyShow]
    exact ⟨rfl, rfl⟩
  · rfl

/-- A raw product record of the saved dataset, restricted to the keys
`BravoMarketingAnalyzer.normalize_products` reads.  Integer prices are
minor-currency units; `sell_by_weight_config` is the optional config dict
abstracted to its optional unit entry; `cat_name` and `cat_slug` are the
underscore-prefixed provenance keys. -/
structure RawProduct where
  id : Option String := none
  rawName : Option String := none
  rawDescr : Option String := none
  price : Option Int := none
  original_price : Option Int := none
  purchasable_balance : Option Int := none
  images : List (Option String) := []
  barcode_gtin : Option String := none
  sell_by_weight_config : Option (Option String) := none
  alcohol_permille : Option Int := none
  is_wolt_plus_only : Option Bool := none
  product_hierarchy_tags : Option (List String) := none
  dietary_preferences : Option (List String) := none
  cat_name : Option String := none
  cat_slug : Option String := none
deriving Repr, DecidableEq

/-- One normalized product of `BravoMarketingAnalyzer.normalize_products`.
Prices are exact rationals standing for the Python floats. -/
structure NormProduct where
  id : Option String
  normName : String
  normDescr : String
  price : ℚ
  original_price : Option ℚ
  discount_percent : Option ℚ
  currency : String
  category : String
  category_slug : String
  image_url : Option String
  in_stock : Bool
  stock_qty : Int
  barcode : Option String
  unit : String
  alcohol_permille : Int
  is_wolt_plus_only : Bool
  tags : List String
  dietary_preferences : List String
deriving Repr, DecidableEq

/-- The loop body of `BravoMarketingAnalyzer.normalize_products` for one raw
product: a falsy price (absent or 0) normalizes to price 0; a falsy original
price normalizes to no original price; the discount percentage is computed
only when the normalized original price and price are both truthy and the
original exceeds the price. -/
def normalizeOne (p : RawProduct) : NormProduct :=
  let price_cents : Int := p.price.getD 0
  let price : ℚ := if price_cents ≠ 0 then (price_cents : ℚ) / 100 else 0
  let original_price : Option ℚ :=
    match p.original_price with
    | some c => if c ≠ 0 then some ((c : ℚ) / 100) else none
    | none => none
  let discount_pct : Option ℚ :=
    match original_price with
    | some op =>
        if op ≠ 0 ∧ price ≠ 0 ∧ price < op then
          some ((op - price) / op * 100)
        else none
    | none => none
  let image_url : Option String :=
    match p.images with
    | [] => none
    | u :: _ => u
  let purchasable_balance : Int := p.purchasable_balance.getD 0
  { id := p.id, normName := p.rawName.getD "",
    normDescr := p.rawDescr.getD "",
    price := price, original_price := original_price,
    discount_percent := discount_pct, currency := "AZN",
    category := p.cat_name.getD "Unknown",
    category_slug := p.cat_slug.getD "",
    image_url := image_url,
    in_stock := decide (0 < purchasable_balance),
    stock_qty := purchasable_balance,
    barcode := p.barcode_gtin,
    unit := match p.sell_by_weight_config with
      | some u => u.getD "piece"
      | none => "piece",
    alcohol_permille := p.alcohol_permille.getD 0,
    is_wolt_plus_only := p.is_wolt_plus_only.getD false,
    tags := p.product_hierarchy_tags.getD [],
    dietary_preferences := p.dietary_preferences.getD [] }

/-- `BravoMarketingAnalyzer.normalize_products` over a loaded product list. -/
def normalize_products (products : List RawProduct) : List NormProduct :=
  products.map normalizeOne

/-- The price list of `BravoMarketingAnalyzer.pricing_analysis`: the prices
of the products whose price is strictly positive. -/
def pricesOf (products : List NormProduct) : List ℚ :=
  (products.filter fun q => 0 < q.price).map fun q => q.price

/-- The aggregate pricing figures computed by `pricing_analysis`. -/
structure PricingStats where
  priced_count : Nat
  avg_price : ℚ
  median_price : ℚ
  min_price : ℚ
  max_price : ℚ
deriving Repr, DecidableEq

/-- `BravoMarketingAnalyzer.pricing_analysis`: with no positive price the
function reports no pricing data; otherwise it computes the count, mean,
median (upper middle of the sorted list), minimum and maximum of the
positive prices. -/
def pricing_analysis (products : List NormProduct) : Option PricingStats :=
  let prices := pricesOf products
  if prices = [] then none
  else
    let stats : PricingStats :=
      { priced_count := prices.length,
        avg_price := prices.sum / (prices.length : ℚ),
        median_price := (prices.mergeSort fun a b => decide (a ≤ b)).getD
          (prices.length / 2) 0,
        min_price := prices.min?.getD 0,
        max_price := prices.max?.getD 0 }
    some stats

/-- C8 counterexample: a product whose price key is present with value 0 and
whose original price is present with value 600 satisfies both-present and
original greater than price, yet normalization computes no discount value —
because the code requires a truthy (non-zero) price, not merely a present
one. -/
theorem c8_counterexample :
    (normalizeOne { price := some 0, original_price := some 600 }).discount_percent
      = none ∧
    ({ price := some 0, original_price := some 600 } : RawProduct).price = some 0 ∧
    ({ price := some 0, original_price := some 600 } : RawProduct).original_price
      = some 600 ∧
    (0 : Int) < 600 := by
  refine ⟨?_, rfl, rfl, by decide⟩
  simp [normalizeOne]

/-- C8 amended: the discount percentage is computed as
(original - price) / original * 100 on the unit-converted prices exactly when
the original price and the price are both present and non-zero (Python
truthiness conflates an absent price with an explicit zero) and the original
exceeds the price; in every other case no discount value is produced (none,
not zero). -/
theorem c8_discount_amended (p : RawProduct) :
    ((pyIntTruthy p.original_price = true ∧ pyIntTruthy p.price = true ∧
        (p.price.getD 0 : ℚ) / 100 < (p.original_price.getD 0 : ℚ) / 100) →
      (normalizeOne p).discount_percent
        = some (((p.original_price.getD 0 : ℚ) / 100 - (p.price.getD 0 : ℚ) / 100)
            / ((p.original_price.getD 0 : ℚ) / 100) * 100)) ∧
    (¬(pyIntTruthy p.original_price = true ∧ pyIntTruthy p.price = true ∧
        (p.price.getD 0 : ℚ) / 100 < (p.original_price.getD 0 : ℚ) / 100) →
      (normalizeOne p).discount_percent = none) := by
  rcases hoc : p.original_price with _ | oc
  · constructor
    · rintro ⟨ht, -, -⟩
      simp [pyIntTruthy, hoc] at ht
    · intro _
      simp [normalizeOne, hoc]
  · by_cases hoc0 : oc = 0
    · subst hoc0
      constructor
      · rintro ⟨ht, -, -⟩
        simp [pyIntTruthy, hoc] at ht
      · intro _
        simp [normalizeOne, hoc]
    · rcases hpc : p.price with _ | pc
      · constructor
        · rintro ⟨-, ht, -⟩
          simp [pyIntTruthy, hpc] at ht
        · intro _
          simp [normalizeOne, hoc, hpc, hoc0]
      · by_cases hpc0 : pc = 0
        · subst hpc0
          constructor
          · rintro ⟨-, ht, -⟩
            simp [pyIntTruthy, hpc] at ht
          · intro _
            simp [normalizeOne, hoc, hpc, hoc0]
        · have hopne : ((oc : ℚ) / 100) ≠ 0 :=
            div_ne_zero (Int.cast_ne_zero.mpr hoc0) (by norm_num)
          have hpne : ((pc : ℚ) / 100) ≠ 0 :=
            div_ne_zero (Int.cast_ne_zero.mpr hpc0) (by norm_num)
          by_cases hlt : (pc : ℚ) / 100 < (oc : ℚ) / 100
          · constructor
            · intro _
              simp [normalizeOne, hoc, hpc, hoc0, hpc0, hopne, hpne, hlt]
            · intro hn
              exfalso
              refine hn ⟨by simp [pyIntTruthy, hoc, hoc0],
                by simp [pyIntTruthy, hpc, hpc0], ?_⟩
              simpa [hoc, hpc] using hlt
          · constructor
            · rintro ⟨-, -, hlt2⟩
              simp only [Option.getD_some] at hlt2
              exact absurd hlt2 hlt
            · intro _
              simp [normalizeOne, hoc, hpc, hoc0, hpc0, hlt]

/-- Witness for C8 amended: a product priced 450 minor units with original
price 600 gets a discount of exactly 25 percent, and a product with no
original price gets no discount value. -/
theorem c8_discount_amended_witness :
    (normalizeOne { price := some 450, original_price := some 600 }).discount_percent
      = some 25 ∧
    (normalizeOne { price := some 450 }).discount_percent = none := by
  constructor
  · have h := (c8_discount_amended { price := some 450, original_price := some 600 }).1
      ⟨by decide, by decide, by norm_num⟩
    rw [h]
    norm_num
  · refine (c8_discount_amended { price := some 450 }).2 ?_
    rintro ⟨ht, -, -⟩
    simp [pyIntTruthy] at ht

/-- C9 counterexample: an absent price is not represented by a distinguished
unknown value: normalization renders it as the number 0, the very value an
explicit zero price normalizes to. -/
theorem c9_counterexample :
    (normalizeOne { price := none }).price = 0 ∧
    (normalizeOne { price := some 0 }).price = (normalizeOne { price := none }).price := by
  constructor
  · simp [normalizeOne]
  · simp [normalizeOne]

theorem normalizeOne_price_zero (p : RawProduct)
    (hp : p.price = none ∨ p.price = some 0) : (normalizeOne p).price = 0 := by
  rcases hp with hp | hp <;> simp [normalizeOne, hp]

theorem pricesOf_append (a b : List NormProduct) :
    pricesOf (a ++ b) = pricesOf a ++ pricesOf b := by
  simp [pricesOf]

theorem pricing_analysis_congr (a b : List NormProduct)
    (h : pricesOf a = pricesOf b) : pricing_analysis a = pricing_analysis b := by
  unfold pricing_analysis
  rw [h]

/-- C9 amended: normalization coerces an absent (or explicitly zero) price to
the number 0 rather than a distinguished unknown value, but the pricing
aggregates of pricing_analysis keep only strictly positive prices, so a
product without a price contributes nothing — in particular no zero — to the
count, average, median, minimum and maximum, and every aggregated price is
strictly positive. -/
theorem c9_priceless_excluded_amended (raws : List RawProduct) (p : RawProduct)
    (hp : p.price = none ∨ p.price = some 0) :
    pricesOf (normalize_products (raws ++ [p])) = pricesOf (normalize_products raws) ∧
    pricing_analysis (normalize_products (raws ++ [p]))
      = pricing_analysis (normalize_products raws) ∧
    (∀ x ∈ pricesOf (normalize_products raws), 0 < x) := by
  have hz : (normalizeOne p).price = 0 := normalizeOne_price_zero p hp
  have h1 : pricesOf (normalize_products (raws ++ [p]))
      = pricesOf (normalize_products raws) := by
    unfold normalize_products
    rw [List.map_append, pricesOf_append]
    have h0 : pricesOf (List.map normalizeOne [p]) = [] := by
      simp [pricesOf, hz]
    rw [h0, List.append_nil]
  refine ⟨h1, pricing_analysis_congr _ _ h1, ?_⟩
  intro x hx
  unfold pricesOf at hx
  obtain ⟨q, hq, rfl⟩ := List.mem_map.mp hx
  exact of_decide_eq_true (List.mem_filter.mp hq).2

/-- Witness for C9 amended: adding a product with no price to a singleton
priced list changes neither the price list nor the pricing aggregates. -/
theorem c9_priceless_excluded_amended_witness :
    pricesOf (normalize_products [{ price := some 450 }, { price := none }])
      = pricesOf (normalize_products [{ price := some 450 }]) ∧
    pricing_analysis (normalize_products [{ price := some 450 }, { price := none }])
      = pricing_analysis (normalize_products [{ price := some 450 }]) := by
  have h := c9_priceless_excluded_amended [{ price := some 450 }]
    { price := none } (Or.inl rfl)
  exact ⟨h.1, h.2.1⟩

/-- The loop state of the empty-query batch strategy of
`WoltCompleteScraper.scrape_all_products` (Method 1): the accumulated product
list, the seen-id set, the number of search calls issued so far, and whether
the loop has exited. -/
structure BatchState where
  all_products : List Item
  product_ids : List String
  batch_num : Nat
  loopDone : Bool
deriving Repr, DecidableEq

/-- The per-batch duplicate filter of the loop body: extend the seen-id set
and keep the items whose id is truthy and unseen. -/
def dedupeBatch (ids : List String) (items : List Item) :
    List String × List Item :=
  items.foldl
    (fun acc it =>
      match it.id with
      | some k =>
          if k ≠ "" ∧ acc.1.contains k = false then (acc.1 ++ [k], acc.2 ++ [it])
          else acc
      | none => acc)
    (ids, [])

/-- One iteration of the while-True loop: when the loop has exited nothing
changes; otherwise fetch the next batch, exit on an empty response, and
otherwise merge the deduplicated new items and exit exactly when the response
has fewer than 500 items — the exit tests never consult the new-item count. -/
def batchStep (resp : Nat → List Item) (st : BatchState) : BatchState :=
  if st.loopDone then st
  else
    let items := resp st.batch_num
    if items.isEmpty then
      { st with batch_num := st.batch_num + 1, loopDone := true }
    else
      let dd := dedupeBatch st.product_ids items
      { all_products := st.all_products ++ dd.2,
        product_ids := dd.1,
        batch_num := st.batch_num + 1,
        loopDone := decide (items.length < 500) }

/-- The state at loop entry. -/
def initBatchState : BatchState :=
  { all_products := [], product_ids := [], batch_num := 0, loopDone := false }

/-- The loop after n iterations against a response source. -/
def runBatches (resp : Nat → List Item) : Nat → BatchState
  | 0 => initBatchState
  | n + 1 => batchStep resp (runBatches resp n)

theorem batchStep_of_done (resp : Nat → List Item) (st : BatchState)
    (h : st.loopDone = true) : batchStep resp st = st := by
  simp [batchStep, h]

theorem runBatches_running (resp : Nat → List Item) (n : Nat)
    (h : ∀ j, j < n → 500 ≤ (resp j).length) :
    (runBatches resp n).loopDone = false ∧ (runBatches resp n).batch_num = n := by
  induction n with
  | zero => exact ⟨rfl, rfl⟩
  | succ n ih =>
      have ihn := ih (fun j hj => h j (Nat.lt_succ_of_lt hj))
      have hlen : 500 ≤ (resp n).length := h n (Nat.lt_succ_self n)
      have hne : (resp n).isEmpty = false := by
        rcases he : resp n with _ | ⟨a, as⟩
        · rw [he] at hlen
          simp at hlen
        · rfl
      have hnlt : ¬(resp n).length < 500 := Nat.not_lt_of_le hlen
      simp [runBatches, batchStep, ihn.1, ihn.2, hne, hnlt]

theorem runBatches_stable (resp : Nat → List Item) (n d : Nat)
    (h : (runBatches resp n).loopDone = true) :
    runBatches resp (n + d) = runBatches resp n := by
  induction d with
  | zero => rfl
  | succ d ih =>
      have : n + (d + 1) = (n + d) + 1 := by omega
      rw [this]
      show batchStep resp (runBatches resp (n + d)) = runBatches resp n
      rw [ih, batchStep_of_done resp _ h]

theorem runBatches_exit (resp : Nat → List Item) (k : Nat)
    (hk : (resp k).length < 500) (hbefore : ∀ j, j < k → 500 ≤ (resp j).length) :
    (runBatches resp (k + 1)).loopDone = true ∧
    (runBatches resp (k + 1)).batch_num = k + 1 := by
  have hkstate := runBatches_running resp k hbefore
  show (batchStep resp (runBatches resp k)).loopDone = true ∧
    (batchStep resp (runBatches resp k)).batch_num = k + 1
  by_cases he : (resp k).isEmpty
  · simp [batchStep, hkstate.1, hkstate.2, he]
  · simp [batchStep, hkstate.1, hkstate.2, he, hk]

theorem batchStep_length_determined (resp resp2 : Nat → List Item)
    (s1 s2 : BatchState) (hd : s1.loopDone = s2.loopDone)
    (hb : s1.batch_num = s2.batch_num)
    (hlen : (resp s1.batch_num).length = (resp2 s2.batch_num).length) :
    (batchStep resp s1).loopDone = (batchStep resp2 s2).loopDone ∧
    (batchStep resp s1).batch_num = (batchStep resp2 s2).batch_num := by
  obtain ⟨p1, i1, b1, d1⟩ := s1
  obtain ⟨p2, i2, b2, d2⟩ := s2
  dsimp only at hd hb hlen
  subst hd
  subst hb
  rcases d1 with _ | _
  · rcases h1 : resp b1 with _ | ⟨a, as⟩ <;> rcases h2 : resp2 b1 with _ | ⟨b, bs⟩
    · simp [batchStep, h1, h2]
    · rw [h1, h2] at hlen
      simp at hlen
    · rw [h1, h2] at hlen
      simp at hlen
    · rw [h1, h2] at hlen
      simp only [List.length_cons] at hlen
      simp [batchStep, h1, h2, hlen]
  · simp [batchStep]

theorem runBatches_length_determined (resp resp2 : Nat → List Item)
    (hlen : ∀ k, (resp k).length = (resp2 k).length) (n : Nat) :
    (runBatches resp n).loopDone = (runBatches resp2 n).loopDone ∧
    (runBatches resp n).batch_num = (runBatches resp2 n).batch_num := by
  induction n with
  | zero => exact ⟨rfl, rfl⟩
  | succ n ih =>
      obtain ⟨hd, hb⟩ := ih
      have hl2 : (resp (runBatches resp n).batch_num).length
          = (resp2 (runBatches resp2 n).batch_num).length := by
        rw [← hb]
        exact hlen _
      exact batchStep_length_determined resp resp2 _ _ hd hb hl2

/-- C10: the empty-query batch loop of the alternate scraper exits exactly
when some response has fewer than 500 items (an empty response included): if
the k-th response (0-indexed) is the first with fewer than 500 items the loop
stops after exactly k+1 search calls, while against a source whose every
response has at least 500 items — even one serving the same 500 items
forever, so that every batch after the first contributes 0 new items — the
loop is still running after any number of iterations; the exit state depends
only on the response lengths, never on the deduplicated new-item count. -/
theorem c10_batch_loop_termination (resp resp2 : Nat → List Item) :
    ((∀ k, 500 ≤ (resp k).length) → ∀ n, (runBatches resp n).loopDone = false) ∧
    (∀ k, (resp k).length < 500 → (∀ j, j < k → 500 ≤ (resp j).length) →
      ∀ n, k < n → (runBatches resp n).loopDone = true ∧
        (runBatches resp n).batch_num = k + 1) ∧
    ((∀ k, (resp k).length = (resp2 k).length) → ∀ n,
      (runBatches resp n).loopDone = (runBatches resp2 n).loopDone ∧
      (runBatches resp n).batch_num = (runBatches resp2 n).batch_num) := by
  refine ⟨?_, ?_, ?_⟩
  · intro hall n
    exact (runBatches_running resp n (fun j _ => hall j)).1
  · intro k hk hbefore n hn
    have hexit := runBatches_exit resp k hk hbefore
    have hsn : n = (k + 1) + (n - (k + 1)) := by omega
    rw [hsn, runBatches_stable resp (k + 1) (n - (k + 1)) hexit.1]
    exact hexit
  · intro hl n
    exact runBatches_length_determined resp resp2 hl n

/-- Witness for C10: a source that answers every query with the same 500-item
batch (all duplicates after the first) keeps the loop running after three
iterations, while a source whose first response is empty stops it after one
search call. -/
theorem c10_batch_loop_termination_witness :
    (runBatches (fun _ => List.replicate 500 { id := some "x" }) 3).loopDone
      = false ∧
    (runBatches (fun _ => ([] : List Item)) 1).loopDone = true ∧
    (runBatches (fun _ => ([] : List Item)) 1).batch_num = 1 := by
  refine ⟨?_, ?_⟩
  · refine (c10_batch_loop_termination
      (fun _ => List.replicate 500 { id := some "x" })
      (fun _ => List.replicate 500 { id := some "x" })).1 ?_ 3
    intro k
    show (500 : Nat) ≤ (List.replicate 500 ({ id := some "x" } : Item)).length
    rw [List.length_replicate]
  · exact (c10_batch_loop_termination (fun _ => ([] : List Item))
      (fun _ => ([] : List Item))).2.1 0 (by simp)
      (fun j hj => absurd hj (Nat.not_lt_zero j)) 1 (by omega)
